import Mathlib

/-!
Shallow embedding of the SPARC dice engine
(src/python/src/server/services/sparc/dice_engine.py) and the dice
broadcaster (src/python/src/server/services/sparc/dice_broadcaster.py).

Modelling conventions:
* Python ints are ℤ (ℕ for values that are always non-negative counts).
* Python float arithmetic on probabilities is modelled twice: exactly over
  ℚ, and bit-exactly as IEEE-754 binary64 with round-to-nearest, ties to
  even, for the claims that hinge on rounding.
* A collections.deque with maxlen is a List together with deque_append.
* Python dicts keyed by session id are total functions from String, with
  the defaultdict default inlined, or with an Option codomain for plain
  dicts whose key presence is observable.
* Wall-clock readings (time.time(), time.perf_counter()) and generated ids
  (secrets.token_hex) are environment inputs passed explicitly.
* The pre-filled pool of SecureRandomGenerator is the list of raw 32-bit
  integers produced by int.from_bytes(secrets.token_bytes(4), big).
-/

/-- One append to a collections.deque with maxlen `cap` (the ledgers and
queues of the engine and broadcaster): when the deque is full, the oldest
(leftmost) entry is silently discarded first; appending never fails. -/
def deque_append {α : Type} (cap : ℕ) (acc : List α) (x : α) : List α :=
  if acc.length < cap then acc ++ [x] else acc.drop 1 ++ [x]

/-- Last `n` entries of a list, in order: Python slice l[-n:] for n ≥ 1. -/
def takeLast {α : Type} (n : ℕ) (l : List α) : List α :=
  l.drop (l.length - n)

/-- Python slice lst[-limit:] guarded by the `if rolls else []` pattern of
the source: for limit = 0 Python returns the whole list (lst[-0:] = lst). -/
def pySliceLast {α : Type} (l : List α) (limit : ℕ) : List α :=
  if l.isEmpty then [] else if limit = 0 then l else takeLast limit l

/-- Capacity of each per-session roll-history deque of DiceEngine
(`deque(maxlen=100)` in DiceEngine.__init__). -/
def ledger_capacity : ℕ := 100

/-- Embeds SecureRandomGenerator.get_secure_random. The pool is the deque
of raw 32-bit integers; popleft on an empty deque raises IndexError,
modelled as `none`. On a non-empty pool the head raw value is converted to
the range by modulo. The low-water branch (pool length < 100) only creates
an asyncio task that refills the pool later; it does not change the value
or the pool seen by this call, so it is modelled by `pool_low_water` and
does not appear in the result. -/
def get_secure_random (min_val max_val : ℤ) (pool : List ℕ) :
    Option (ℤ × List ℕ) :=
  match pool with
  | [] => none
  | raw :: rest => some (min_val + (raw : ℤ) % (max_val - min_val + 1), rest)

/-- Low-water condition under which SecureRandomGenerator.get_secure_random
schedules an asynchronous pool refill (without blocking the caller). -/
def pool_low_water (pool : List ℕ) : Bool :=
  pool.length < 100

/-- Embeds the loop in DiceEngine.roll_dice that draws `dice_count`
individual values via get_secure_random(1, dice_sides). The failure of any
single draw (empty pool) aborts the loop; the pool consumed so far stays
consumed, as with the Python exception. -/
def draw_rolls (dice_sides : ℤ) : ℕ → List ℕ → Option (List ℤ) × List ℕ
  | 0, pool => (some [], pool)
  | k + 1, pool =>
    match get_secure_random 1 dice_sides pool with
    | none => (none, pool)
    | some (v, pool2) =>
      match draw_rolls dice_sides k pool2 with
      | (some vs, pool3) => (some (v :: vs), pool3)
      | (none, pool3) => (none, pool3)

/-- Embeds the DiceRoll dataclass of dice_engine.py. -/
structure DiceRollRec where
  id : String
  session_id : String
  character_id : String
  roll_type : String
  dice_count : ℤ
  dice_sides : ℤ
  modifier : ℤ
  result : ℤ
  individual_rolls : List ℤ
  difficulty : Option ℤ
  success : Option Bool
  timestamp : ℚ
  response_time_ms : ℚ
deriving DecidableEq

/-- Embeds the per-session dict built by DiceEngine._update_session_stats
(roll_types is a defaultdict(int), modelled with default 0). -/
structure SessionStats where
  total_rolls : ℕ
  total_result : ℤ
  success_count : ℕ
  roll_types : String → ℕ

/-- Embeds PerformanceTracker: a deque of response times bounded at 1000
plus the total and sub-100ms counters. -/
structure PerformanceTracker where
  response_times : List ℚ
  total_rolls : ℕ
  sub_100ms_count : ℕ

/-- Embeds PerformanceTracker.record_roll. -/
def PerformanceTracker.record_roll (pt : PerformanceTracker) (t : ℚ) :
    PerformanceTracker :=
  { response_times := deque_append 1000 pt.response_times t
    total_rolls := pt.total_rolls + 1
    sub_100ms_count := if t < 100 then pt.sub_100ms_count + 1 else pt.sub_100ms_count }

/-- Mutable state of a DiceEngine instance: the RNG pool, the per-session
roll-history deques (defaultdict, default empty), the per-session stats
dict (plain dict: presence observable) and the performance tracker. -/
structure EngineState where
  pool : List ℕ
  roll_history : String → List DiceRollRec
  session_stats : String → Option SessionStats
  tracker : PerformanceTracker

/-- Embeds DiceEngine._update_session_stats: initialises the session entry
on first use, then bumps totals; success_count is incremented only when
roll.success is truthy (some true). -/
def update_session_stats (stats : String → Option SessionStats)
    (session_id : String) (roll : DiceRollRec) : String → Option SessionStats :=
  let cur := (stats session_id).getD
    { total_rolls := 0, total_result := 0, success_count := 0, roll_types := fun _ => 0 }
  let inc : ℕ := match roll.success with | some true => 1 | _ => 0
  let upd : SessionStats :=
    { total_rolls := cur.total_rolls + 1
      total_result := cur.total_result + roll.result
      success_count := cur.success_count + inc
      roll_types := fun k =>
        if k = roll.roll_type then cur.roll_types k + 1 else cur.roll_types k }
  fun k => if k = session_id then some upd else stats k

/-- Embeds DiceEngine.roll_dice. Validation happens first (fast fail), then
the individual draws, the total, the optional success flag, and finally the
bookkeeping: performance sample, history append (bounded deque) and session
statistics. The roll id, the wall-clock timestamp and the measured latency
are environment inputs. A ValueError or an IndexError from an exhausted
pool is an `Except.error`; the state component of the result is the state
of the engine after the call, unchanged when validation fails. -/
def roll_dice (st : EngineState) (session_id character_id : String)
    (dice_count dice_sides : ℤ) (modifier : ℤ) (difficulty : Option ℤ)
    (roll_type : String) (roll_id : String) (timestamp response_time_ms : ℚ) :
    Except String DiceRollRec × EngineState :=
  if dice_count ≤ 0 ∨ 20 < dice_count then
    (.error "Dice count must be between 1 and 20", st)
  else if dice_sides ∉ ([4, 6, 8, 10, 12, 20] : List ℤ) then
    (.error "Dice sides must be 4, 6, 8, 10, 12, or 20", st)
  else
    match draw_rolls dice_sides dice_count.toNat st.pool with
    | (none, pool2) => (.error "pop from an empty deque", { st with pool := pool2 })
    | (some rolls, pool2) =>
      let total_result : ℤ := rolls.sum + modifier
      let success : Option Bool := difficulty.map (fun d => decide (d ≤ total_result))
      let roll : DiceRollRec :=
        { id := roll_id, session_id := session_id, character_id := character_id
          roll_type := roll_type, dice_count := dice_count, dice_sides := dice_sides
          modifier := modifier, result := total_result, individual_rolls := rolls
          difficulty := difficulty, success := success, timestamp := timestamp
          response_time_ms := response_time_ms }
      (.ok roll,
        { pool := pool2
          roll_history := fun k =>
            if k = session_id then
              deque_append ledger_capacity (st.roll_history k) roll
            else st.roll_history k
          session_stats := update_session_stats st.session_stats session_id roll
          tracker := st.tracker.record_roll response_time_ms })

/-- Embeds DiceEngine.get_recent_rolls: the last `limit` entries of the
session history (Python rolls[-limit:] with the empty guard). -/
def engine_get_recent_rolls (st : EngineState) (session_id : String)
    (limit : ℕ) : List DiceRollRec :=
  pySliceLast (st.roll_history session_id) limit

/-- Embeds DiceEngine.clear_session_data: deletes the session key from the
roll-history and session-stats dicts; a deleted defaultdict key behaves as
the empty history afterwards. -/
def engine_clear_session_data (st : EngineState) (session_id : String) :
    EngineState :=
  { st with
    roll_history := fun k => if k = session_id then [] else st.roll_history k
    session_stats := fun k => if k = session_id then none else st.session_stats k }

/-- Embeds generate_all_combinations inside
ProbabilityEngine._compute_probability_distribution: the number of ways to
roll `k` dice with `dice_sides` sides so that the values sum to `total`
(the recursion mirrors `for roll in range(1, dice_sides + 1)` around the
recursive call on one fewer die). -/
def tupleCount (dice_sides : ℕ) : ℕ → ℤ → ℕ
  | 0, total => if total = 0 then 1 else 0
  | k + 1, total =>
    ((List.range dice_sides).map
      (fun (r : ℕ) => tupleCount dice_sides k (total - ((r : ℤ) + 1)))).sum

/-- Integer numerator of ProbabilityEngine.get_success_probability: the
number of enumerated outcomes whose total_result = min_roll + i + modifier
reaches the difficulty, accumulated over the distribution range
[min_roll, max_roll] exactly as the enumerate loop does. -/
def successCount (dice_count dice_sides : ℕ) (modifier difficulty : ℤ) : ℕ :=
  ((List.range (dice_count * dice_sides + 1 - dice_count)).map (fun (i : ℕ) =>
    if difficulty ≤ (dice_count : ℤ) + (i : ℤ) + modifier
    then tupleCount dice_sides dice_count ((dice_count : ℤ) + (i : ℤ)) else 0)).sum

/-- Embeds ProbabilityEngine.get_success_probability over exact rational
arithmetic: probabilities[i] = outcome_counts[min_roll + i] /
total_outcomes as computed by _compute_probability_distribution (memoized
per (dice_count, dice_sides) key; memoization does not change the value),
and the enumerate loop adds the probability of every result that reaches
the difficulty after the modifier. Python float arithmetic is modelled
exactly over ℚ here; get_success_probability_float below is the bit-exact
binary64 model for the claims where rounding matters. -/
def get_success_probability (dice_count dice_sides : ℕ)
    (modifier difficulty : ℤ) : ℚ :=
  ((List.range (dice_count * dice_sides + 1 - dice_count)).map (fun (i : ℕ) =>
    if difficulty ≤ (dice_count : ℤ) + (i : ℤ) + modifier
    then (tupleCount dice_sides dice_count ((dice_count : ℤ) + (i : ℤ)) : ℚ) /
      ((dice_sides : ℚ) ^ dice_count)
    else 0)).sum

/-- Sum of a list of die values as a Python int (ℤ). -/
def sumInt (l : List ℕ) : ℤ :=
  Int.ofNat l.sum

/-- Brute-force reference enumeration (written from the specification, not
from the code): every length-n outcome list of an n-dice roll, each die
value in [1, dice_sides]. -/
def allOutcomes (dice_sides : ℕ) : ℕ → List (List ℕ)
  | 0 => [[]]
  | k + 1 =>
    ((List.range dice_sides).map (fun r => r + 1)).flatMap
      (fun r => (allOutcomes dice_sides k).map (fun l => r :: l))

/-- Brute-force reference count of the outcomes that succeed against the
difficulty. -/
def exactSuccessCount (dice_count dice_sides : ℕ)
    (modifier difficulty : ℤ) : ℕ :=
  (allOutcomes dice_sides dice_count).countP
    (fun l => decide (difficulty ≤ sumInt l + modifier))

/-- Binary64 value mantissa * 2^exp in normalised form (2^52 ≤ mantissa <
2^53 for nonzero values; mantissa 0 with exp 0 is +0.0). Exponent overflow
and subnormals cannot arise for the probability values of this code and
are outside the model. -/
structure FloatRep where
  mantissa : ℕ
  exp : ℤ
deriving DecidableEq

/-- The binary64 value +0.0 (Python success_prob = 0.0 start). -/
def floatZero : FloatRep := ⟨0, 0⟩

/-- The binary64 value 1.0. -/
def floatOne : FloatRep := ⟨2 ^ 52, -52⟩

/-- Does 2^e ≤ num/den hold, for num, den > 0, in integer form. -/
def pow2_le (e : ℤ) (num den : ℕ) : Bool :=
  if 0 ≤ e then den * 2 ^ e.toNat ≤ num else den ≤ num * 2 ^ (-e).toNat

/-- Binary exponent of num/den: the e with 2^e ≤ num/den < 2^(e+1),
searched over the window [-200, 200], which covers every value the
probability computation can produce (probabilities lie between 20^(-20)
and 1). -/
def floatExponent (num den : ℕ) : ℤ :=
  ((((List.range 401).map (fun i => (i : ℤ) - 200)).find?
    (fun e => pow2_le e num den && !pow2_le (e + 1) num den)).getD 0)

/-- Round the nonnegative rational num/den to the nearest binary64 value
(round-half-to-even), in normalised mantissa form. Python int / int
division returns exactly this correctly rounded double. -/
def floatRound (num den : ℕ) : FloatRep :=
  if num = 0 then floatZero else
  let e := floatExponent num den
  let t : ℤ := 52 - e
  let p : ℕ := if 0 ≤ t then num * 2 ^ t.toNat else num
  let q : ℕ := if 0 ≤ t then den else den * 2 ^ (-t).toNat
  let m0 := p / q
  let r := p % q
  let m := if 2 * r < q then m0 else if q < 2 * r then m0 + 1 else
    if m0 % 2 = 0 then m0 else m0 + 1
  if m = 2 ^ 53 then ⟨2 ^ 52, e - 51⟩ else ⟨m, e - 52⟩

/-- Binary64 addition of two nonnegative model values: the exact sum,
re-rounded once, as IEEE-754 prescribes for Python float +. -/
def floatAdd (a b : FloatRep) : FloatRep :=
  let e := min a.exp b.exp
  let n : ℕ := a.mantissa * 2 ^ (a.exp - e).toNat + b.mantissa * 2 ^ (b.exp - e).toNat
  if 0 ≤ e then floatRound (n * 2 ^ e.toNat) 1 else floatRound n (2 ^ (-e).toNat)

/-- Bit-exact binary64 model of ProbabilityEngine.get_success_probability:
probabilities[i] is the correctly rounded double
outcome_counts[min_roll + i] / total_outcomes, and success_prob
accumulates one binary64 addition per qualifying index, in index order,
exactly as the enumerate loop does. -/
def get_success_probability_float (dice_count dice_sides : ℕ)
    (modifier difficulty : ℤ) : FloatRep :=
  (List.range (dice_count * dice_sides + 1 - dice_count)).foldl
    (fun acc (i : ℕ) =>
      if difficulty ≤ (dice_count : ℤ) + (i : ℤ) + modifier then
        floatAdd acc
          (floatRound
            (tupleCount dice_sides dice_count ((dice_count : ℤ) + (i : ℤ)))
            (dice_sides ^ dice_count))
      else acc)
    floatZero

/-- Embeds the RollBroadcast dataclass of dice_broadcaster.py. roll_data is
the to_dict image of the DiceRoll; since the dict round-trip
DiceRoll(**broadcast.roll_data) restores the record, roll_data is modelled
as the record itself. -/
structure RollBroadcast where
  roll_id : String
  session_id : String
  character_id : String
  roll_data : DiceRollRec
  broadcast_time : ℚ
deriving DecidableEq

/-- Response body built by DiceBroadcaster.get_recent_rolls before the
ETag is attached: session_id, the serialized recent rolls, their count and
the server timestamp taken inside the call. This is exactly the data that
ETagManager.generate_etag serializes (json.dumps with sort_keys) and
hashes. -/
structure RecentRollsPayload where
  session_id : String
  rolls : List DiceRollRec
  count : ℕ
  timestamp : ℚ
deriving DecidableEq

/-- Embeds ETagManager.generate_etag up to the hash: the MD5 hex digest of
the canonical JSON serialization of the payload. The serialization is
injective on payloads and MD5 is treated as an injective fingerprint
(collisions are outside the model), so an ETag is represented by the
payload it hashes: two ETags are equal exactly when the serialized
response contents are equal. The accompanying store into the manager dicts
is modelled at the call site. -/
def generate_etag (payload : RecentRollsPayload) : RecentRollsPayload :=
  payload

/-- Poll answer of DiceBroadcaster.get_recent_rolls: either the fresh
response body carrying its ETag, or the short not-modified response. -/
inductive PollResponse where
  | fresh (data : RecentRollsPayload) (etag : RecentRollsPayload)
  | notModified (etag : RecentRollsPayload) (timestamp : ℚ)
deriving DecidableEq

/-- Mutable state of a DiceBroadcaster with its RollQueue and ETagManager:
the global broadcast deque (maxlen 1000), the per-session broadcast deques
(maxlen 100, defaultdict), the stored ETag and last-modified time per
session, the active-session set and the subscriber counts. -/
structure BroadcasterState where
  main_queue : List RollBroadcast
  session_queues : String → List RollBroadcast
  etags : String → Option RecentRollsPayload
  last_modified : String → Option ℚ
  active_sessions : String → Bool
  session_subscribers : String → ℕ

/-- Embeds ETagManager.check_etag: true when a stored ETag exists for the
session and equals the client ETag. -/
def check_etag (etags : String → Option RecentRollsPayload)
    (session_id : String) (client_etag : Option RecentRollsPayload) : Bool :=
  match etags session_id, client_etag with
  | some cur, some ce => decide (cur = ce)
  | _, _ => false

/-- Embeds RollQueue.add_roll: wraps the roll in a RollBroadcast stamped
with the broadcast time and appends it to the global and per-session
bounded deques. -/
def add_roll (bst : BroadcasterState) (roll : DiceRollRec) (now : ℚ) :
    BroadcasterState :=
  let b : RollBroadcast :=
    { roll_id := roll.id, session_id := roll.session_id
      character_id := roll.character_id, roll_data := roll
      broadcast_time := now }
  { bst with
    main_queue := deque_append 1000 bst.main_queue b
    session_queues := fun k =>
      if k = roll.session_id then deque_append 100 (bst.session_queues k) b
      else bst.session_queues k }

/-- Embeds DiceBroadcaster.broadcast_roll: queues the roll and marks the
session active. The trailing _maybe_cleanup only runs the janitor sweep
once a 5-minute interval has elapsed; the sweep is time-driven
housekeeping modelled here as not yet due. -/
def broadcast_roll (bst : BroadcasterState) (roll : DiceRollRec) (now : ℚ) :
    BroadcasterState :=
  let bst2 := add_roll bst roll now
  { bst2 with
    active_sessions := fun k =>
      if k = roll.session_id then true else bst2.active_sessions k }

/-- Embeds DiceBroadcaster.get_recent_rolls. The last `limit` broadcasts
of the session are deserialized back into rolls and wrapped in the
response body together with the current server time; generate_etag stores
the fresh ETag and last-modified time, and only then is the client ETag
compared (ETagManager.check_etag) against the just-stored value, so
not-modified is answered exactly when the client ETag equals the ETag of
the response body just built. -/
def get_recent_rolls (bst : BroadcasterState) (session_id : String)
    (limit : ℕ) (client_etag : Option RecentRollsPayload) (now : ℚ) :
    PollResponse × BroadcasterState :=
  let recent := pySliceLast (bst.session_queues session_id) limit
  let recent_rolls := recent.map (fun b => b.roll_data)
  let payload : RecentRollsPayload :=
    { session_id := session_id, rolls := recent_rolls
      count := recent_rolls.length, timestamp := now }
  let current_etag := generate_etag payload
  let bst2 : BroadcasterState :=
    { bst with
      etags := fun k => if k = session_id then some current_etag else bst.etags k
      last_modified := fun k => if k = session_id then some now else bst.last_modified k }
  if client_etag.isSome && check_etag bst2.etags session_id client_etag then
    (.notModified current_etag now, bst2)
  else
    (.fresh payload current_etag, bst2)

/-- Embeds DiceBroadcaster.clear_session_data together with
RollQueue.clear_session: the per-session broadcast deque is emptied, the
session leaves the active set and its subscriber count is dropped; the
global queue, the ETag store and every other session are untouched. -/
def broadcaster_clear_session_data (bst : BroadcasterState)
    (session_id : String) : BroadcasterState :=
  { bst with
    session_queues := fun k => if k = session_id then [] else bst.session_queues k
    active_sessions := fun k => if k = session_id then false else bst.active_sessions k
    session_subscribers := fun k => if k = session_id then 0 else bst.session_subscribers k }

/-- Concrete engine state used by the closed instantiations below: a fresh
engine whose pool starts with the raw draws 5, 11, 2. -/
def witness_engine_state : EngineState :=
  { pool := [5, 11, 2]
    roll_history := fun _ => []
    session_stats := fun _ => none
    tracker := { response_times := [], total_rolls := 0, sub_100ms_count := 0 } }

/-- The roll that witness_engine_state resolves for 3d6+2 against
difficulty 12: raw values 5, 11, 2 become dice 6, 6, 3. -/
def witness_roll : DiceRollRec :=
  { id := "r1", session_id := "s1", character_id := "c1", roll_type := "attack"
    dice_count := 3, dice_sides := 6, modifier := 2, result := 17
    individual_rolls := [6, 6, 3], difficulty := some 12, success := some true
    timestamp := 0, response_time_ms := 5 }

/-- The roll that witness_engine_state resolves for 3d6+2 with no
difficulty given: success stays None. -/
def witness_roll_nodiff : DiceRollRec :=
  { id := "r1", session_id := "s1", character_id := "c1", roll_type := "attack"
    dice_count := 3, dice_sides := 6, modifier := 2, result := 17
    individual_rolls := [6, 6, 3], difficulty := none, success := none
    timestamp := 0, response_time_ms := 5 }

/-- Concrete broadcaster state used by the closed instantiations below: a
fresh broadcaster with no queued broadcast and no stored ETag. -/
def witness_bst : BroadcasterState :=
  { main_queue := []
    session_queues := fun _ => []
    etags := fun _ => none
    last_modified := fun _ => none
    active_sessions := fun _ => false
    session_subscribers := fun _ => 0 }

/-- A ledger overflow input: 101 copies of witness_roll. -/
def witness_rolls : List DiceRollRec := List.replicate 101 witness_roll
lemma deque_append_eq_takeLast {α : Type} (cap : ℕ) (hcap : 1 ≤ cap)
    (acc : List α) (x : α) (h : acc.length ≤ cap) :
    deque_append cap acc x = takeLast cap (acc ++ [x]) := by
  unfold deque_append takeLast
  rcases Nat.lt_or_ge acc.length cap with hlt | hge
  · rw [if_pos hlt]
    have h0 : (acc ++ [x]).length - cap = 0 := by simp; omega
    rw [h0, List.drop_zero]
  · have hne : ¬ acc.length < cap := by omega
    have h1 : (acc ++ [x]).length - cap = 1 := by simp; omega
    rw [if_neg hne, h1, List.drop_append_of_le_length (by omega)]

lemma deque_append_length_le {α : Type} (cap : ℕ) (hcap : 1 ≤ cap)
    (acc : List α) (x : α) (h : acc.length ≤ cap) :
    (deque_append cap acc x).length ≤ cap := by
  unfold deque_append
  rcases Nat.lt_or_ge acc.length cap with hlt | hge
  · simp [hlt]; omega
  · have hne : ¬ acc.length < cap := by omega
    simp [hne]; omega

lemma takeLast_append_drop {α : Type} (n j : ℕ) (l : List α)
    (hj : j ≤ l.length - n) :
    takeLast n (l.drop j) = takeLast n l := by
  unfold takeLast
  rw [List.length_drop, List.drop_drop]
  congr 1
  omega

lemma takeLast_takeLast_append {α : Type} (n : ℕ) (l m : List α) :
    takeLast n (takeLast n l ++ m) = takeLast n (l ++ m) := by
  have h1 : takeLast n l ++ m = (l ++ m).drop (l.length - n) := by
    unfold takeLast
    rw [List.drop_append_of_le_length (Nat.sub_le _ _)]
  rw [h1, takeLast_append_drop]
  simp
  omega

lemma foldl_deque_append {α : Type} (cap : ℕ) (hcap : 1 ≤ cap) :
    ∀ (xs acc : List α), acc.length ≤ cap →
      xs.foldl (deque_append cap) acc = takeLast cap (acc ++ xs)
  | [], acc, h => by
    simp only [List.foldl_nil, List.append_nil]
    unfold takeLast
    have h0 : acc.length - cap = 0 := by omega
    rw [h0, List.drop_zero]
  | x :: xs, acc, h => by
    rw [List.foldl_cons,
      foldl_deque_append cap hcap xs _ (deque_append_length_le cap hcap acc x h),
      deque_append_eq_takeLast cap hcap acc x h, takeLast_takeLast_append]
    simp

lemma draw_rolls_ok (dice_sides : ℤ) (hs : 0 < dice_sides) :
    ∀ (k : ℕ) (pool : List ℕ) (vs : List ℤ) (pool2 : List ℕ),
      draw_rolls dice_sides k pool = (some vs, pool2) →
      vs.length = k ∧ ∀ v ∈ vs, 1 ≤ v ∧ v ≤ dice_sides
  | 0, pool, vs, pool2, h => by
    simp only [draw_rolls, Prod.mk.injEq, Option.some.injEq] at h
    obtain ⟨hvs, hp⟩ := h
    subst hvs
    simp
  | k + 1, [], vs, pool2, h => by
    simp [draw_rolls, get_secure_random] at h
  | k + 1, raw :: rest, vs, pool2, h => by
    rcases h2 : draw_rolls dice_sides k rest with ⟨ov, pool3⟩
    cases ov with
    | none =>
      simp only [draw_rolls, get_secure_random, h2, Prod.mk.injEq] at h
      exact absurd h.1 (by simp)
    | some vs2 =>
      simp only [draw_rolls, get_secure_random, h2, Prod.mk.injEq,
        Option.some.injEq] at h
      obtain ⟨hvs, hp⟩ := h
      subst hvs
      obtain ⟨ihlen, ihmem⟩ := draw_rolls_ok dice_sides hs k rest vs2 pool3 h2
      refine ⟨by simp [ihlen], ?_⟩
      intro v hv
      rcases List.mem_cons.mp hv with hv | hv
      · subst hv
        have hrange : dice_sides - 1 + 1 = dice_sides := by ring
        rw [hrange]
        have h1 : 0 ≤ (raw : ℤ) % dice_sides :=
          Int.emod_nonneg _ (ne_of_gt hs)
        have h2b : (raw : ℤ) % dice_sides < dice_sides :=
          Int.emod_lt_of_pos _ hs
        omega
      · exact ihmem v hv

/-- C1: for every valid roll request (1 ≤ diceCount ≤ 20 and sides in
{4,6,8,10,12,20}) that resolves, the RollResult has individual_rolls of
length diceCount with every die value in [1, sides], and
result = sum(individual_rolls) + modifier exactly. -/
theorem roll_dice_values_in_range
    (st : EngineState) (session_id character_id : String)
    (dice_count dice_sides modifier : ℤ) (difficulty : Option ℤ)
    (roll_type roll_id : String) (timestamp response_time_ms : ℚ)
    (roll : DiceRollRec)
    (hcount : 1 ≤ dice_count ∧ dice_count ≤ 20)
    (hsides : dice_sides ∈ ([4, 6, 8, 10, 12, 20] : List ℤ))
    (hok : (roll_dice st session_id character_id dice_count dice_sides modifier
      difficulty roll_type roll_id timestamp response_time_ms).1 = .ok roll) :
    (roll.individual_rolls.length : ℤ) = dice_count ∧
    (∀ v ∈ roll.individual_rolls, 1 ≤ v ∧ v ≤ dice_sides) ∧
    roll.result = roll.individual_rolls.sum + modifier := by
  have hs : 0 < dice_sides := by
    simp only [List.mem_cons, List.not_mem_nil, or_false] at hsides
    rcases hsides with h | h | h | h | h | h <;> omega
  unfold roll_dice at hok
  rw [if_neg (by omega), if_neg (not_not_intro hsides)] at hok
  rcases hdr : draw_rolls dice_sides dice_count.toNat st.pool with ⟨ov, pool2⟩
  rw [hdr] at hok
  cases ov with
  | none => simp at hok
  | some rolls =>
    simp only [Except.ok.injEq] at hok
    obtain ⟨hlen, hmem⟩ :=
      draw_rolls_ok dice_sides hs dice_count.toNat st.pool rolls pool2 hdr
    subst hok
    refine ⟨?_, hmem, rfl⟩
    rw [hlen]
    omega

/-- Closed instantiation of roll_dice_values_in_range: 3d6+2 resolved from
the concrete pool draws 5, 11, 2. -/
theorem roll_dice_values_in_range_witness :
    (witness_roll.individual_rolls.length : ℤ) = 3 ∧
    (∀ v ∈ witness_roll.individual_rolls, 1 ≤ v ∧ v ≤ 6) ∧
    witness_roll.result = witness_roll.individual_rolls.sum + 2 :=
  roll_dice_values_in_range witness_engine_state "s1" "c1" 3 6 2 (some 12)
    "attack" "r1" 0 5 witness_roll (by decide) (by decide) rfl

/-- C2: for every resolved roll with a difficulty provided,
success = (total ≥ difficulty); with difficulty absent, success is None,
never false. -/
theorem roll_dice_success_flag
    (st : EngineState) (session_id character_id : String)
    (dice_count dice_sides modifier : ℤ) (difficulty : Option ℤ)
    (roll_type roll_id : String) (timestamp response_time_ms : ℚ)
    (roll : DiceRollRec)
    (hok : (roll_dice st session_id character_id dice_count dice_sides modifier
      difficulty roll_type roll_id timestamp response_time_ms).1 = .ok roll) :
    (∀ d, difficulty = some d → roll.success = some (decide (d ≤ roll.result))) ∧
    (difficulty = none → roll.success = none) := by
  unfold roll_dice at hok
  by_cases h1 : dice_count ≤ 0 ∨ 20 < dice_count
  · rw [if_pos h1] at hok
    simp at hok
  · rw [if_neg h1] at hok
    by_cases h2 : dice_sides ∉ ([4, 6, 8, 10, 12, 20] : List ℤ)
    · rw [if_pos h2] at hok
      simp at hok
    · rw [if_neg h2] at hok
      rcases hdr : draw_rolls dice_sides dice_count.toNat st.pool with ⟨ov, pool2⟩
      rw [hdr] at hok
      cases ov with
      | none => simp at hok
      | some rolls =>
        simp only [Except.ok.injEq] at hok
        subst hok
        constructor
        · intro d hd
          subst hd
          rfl
        · intro hd
          subst hd
          rfl

/-- Closed instantiation of roll_dice_success_flag: with difficulty 12 the
flag is the comparison against the total; with no difficulty it is None. -/
theorem roll_dice_success_flag_witness :
    witness_roll.success = some (decide ((12 : ℤ) ≤ witness_roll.result)) ∧
    witness_roll_nodiff.success = none :=
  ⟨(roll_dice_success_flag witness_engine_state "s1" "c1" 3 6 2 (some 12)
      "attack" "r1" 0 5 witness_roll rfl).1 12 rfl,
   (roll_dice_success_flag witness_engine_state "s1" "c1" 3 6 2 none
      "attack" "r1" 0 5 witness_roll_nodiff rfl).2 rfl⟩

/-- C3: an invalid dice count or dice sides is rejected with a
ValidationError raised before any randomness is drawn and creates no
partial state: the pool, the session ledgers, the session statistics and
the performance tracker are all exactly as before the call. -/
theorem roll_dice_invalid_no_side_effects
    (st : EngineState) (session_id character_id : String)
    (dice_count dice_sides modifier : ℤ) (difficulty : Option ℤ)
    (roll_type roll_id : String) (timestamp response_time_ms : ℚ)
    (hbad : dice_count < 1 ∨ 20 < dice_count ∨
      dice_sides ∉ ([4, 6, 8, 10, 12, 20] : List ℤ)) :
    (∃ msg, (roll_dice st session_id character_id dice_count dice_sides modifier
      difficulty roll_type roll_id timestamp response_time_ms).1 = .error msg) ∧
    (roll_dice st session_id character_id dice_count dice_sides modifier
      difficulty roll_type roll_id timestamp response_time_ms).2 = st := by
  by_cases h1 : dice_count ≤ 0 ∨ 20 < dice_count
  · rw [roll_dice, if_pos h1]
    exact ⟨⟨_, rfl⟩, rfl⟩
  · have hmem : dice_sides ∉ ([4, 6, 8, 10, 12, 20] : List ℤ) := by
      rcases hbad with h | h | h
      · exact absurd (Or.inl (by omega)) h1
      · exact absurd (Or.inr h) h1
      · exact h
    rw [roll_dice, if_neg h1, if_pos hmem]
    exact ⟨⟨_, rfl⟩, rfl⟩

/-- Closed instantiation of roll_dice_invalid_no_side_effects: diceCount 25
is rejected and the engine state is untouched. -/
theorem roll_dice_invalid_no_side_effects_witness :
    (∃ msg, (roll_dice witness_engine_state "s1" "c1" 25 6 0 none
      "general" "r2" 0 1).1 = .error msg) ∧
    (roll_dice witness_engine_state "s1" "c1" 25 6 0 none
      "general" "r2" 0 1).2 = witness_engine_state :=
  roll_dice_invalid_no_side_effects witness_engine_state "s1" "c1" 25 6 0 none
    "general" "r2" 0 1 (by decide)

/-- C6: appending more than the ledger capacity (100) to a session ledger
leaves exactly the 100 most recent rolls in insertion order — the suffix of
the appended sequence — with the oldest entries dropped first; overflow is
never an error (deque_append is total). -/
theorem ledger_eviction (rolls : List DiceRollRec)
    (h : ledger_capacity < rolls.length) :
    rolls.foldl (deque_append ledger_capacity) [] =
      rolls.drop (rolls.length - ledger_capacity) ∧
    (rolls.foldl (deque_append ledger_capacity) []).length = ledger_capacity := by
  have hfold := foldl_deque_append ledger_capacity (by norm_num [ledger_capacity])
    rolls [] (by simp)
  rw [List.nil_append] at hfold
  unfold takeLast at hfold
  refine ⟨hfold, ?_⟩
  rw [hfold, List.length_drop]
  omega

/-- Closed instantiation of ledger_eviction: 101 appends leave the last
100 entries. -/
theorem ledger_eviction_witness :
    witness_rolls.foldl (deque_append ledger_capacity) [] =
      witness_rolls.drop (witness_rolls.length - ledger_capacity) ∧
    (witness_rolls.foldl (deque_append ledger_capacity) []).length =
      ledger_capacity :=
  ledger_eviction witness_rolls
    (by simp [witness_rolls, ledger_capacity])

/-- C9 counterexample: drawing from an empty pool fails (popleft raises
IndexError, modelled as none); there is no fallback to a direct secure
draw in the empty-pool branch. -/
theorem get_secure_random_empty_pool_raises :
    get_secure_random 1 6 [] = none := rfl

/-- C9 amended: a draw fails exactly when the pool is empty; on a
non-empty pool the caller is always served by popping the head raw value
(the low-water refill is only scheduled asynchronously and never blocks or
serves the call). -/
theorem get_secure_random_pool_only (min_val max_val : ℤ) (pool : List ℕ)
    (h : pool ≠ []) :
    get_secure_random min_val max_val pool =
      some (min_val + (pool.headD 0 : ℤ) % (max_val - min_val + 1), pool.tail) := by
  match pool with
  | [] => exact absurd rfl h
  | raw :: rest => rfl

/-- Closed instantiation of get_secure_random_pool_only on the pool
[7, 3]. -/
theorem get_secure_random_pool_only_witness :
    get_secure_random 1 6 [7, 3] =
      some (1 + (([7, 3] : List ℕ).headD 0 : ℤ) % (6 - 1 + 1),
        ([7, 3] : List ℕ).tail) :=
  get_secure_random_pool_only 1 6 [7, 3] (by decide)

/-- C10: clearing a session is session-local: clearing session `a` empties
exactly the roll history, session statistics, broadcast queue, active flag
and subscriber count, while every other session `b` keeps its roll
history, statistics, queued broadcasts, ETag, subscriber count and active
flag, and the global queue and performance tracker are untouched. -/
theorem clear_session_data_frame (st : EngineState) (bst : BroadcasterState)
    (a b : String) (hab : b ≠ a) :
    (engine_clear_session_data st a).roll_history b = st.roll_history b ∧
    (engine_clear_session_data st a).session_stats b = st.session_stats b ∧
    (engine_clear_session_data st a).tracker = st.tracker ∧
    (engine_clear_session_data st a).pool = st.pool ∧
    (engine_clear_session_data st a).roll_history a = [] ∧
    (engine_clear_session_data st a).session_stats a = none ∧
    (broadcaster_clear_session_data bst a).session_queues b = bst.session_queues b ∧
    (broadcaster_clear_session_data bst a).session_subscribers b = bst.session_subscribers b ∧
    (broadcaster_clear_session_data bst a).active_sessions b = bst.active_sessions b ∧
    (broadcaster_clear_session_data bst a).etags b = bst.etags b ∧
    (broadcaster_clear_session_data bst a).main_queue = bst.main_queue ∧
    (broadcaster_clear_session_data bst a).session_queues a = [] ∧
    (broadcaster_clear_session_data bst a).session_subscribers a = 0 ∧
    (broadcaster_clear_session_data bst a).active_sessions a = false := by
  unfold engine_clear_session_data broadcaster_clear_session_data
  simp [hab]

/-- Closed instantiation of clear_session_data_frame: clearing session "a"
leaves session "b" untouched. -/
theorem clear_session_data_frame_witness :
    (engine_clear_session_data witness_engine_state "a").roll_history "b" =
      witness_engine_state.roll_history "b" :=
  (clear_session_data_frame witness_engine_state witness_bst "a" "b"
    (by decide)).1

/-- C5: polling a session that has no ledger is not an error: the response
is fresh (not a failure, not not-modified) with an empty roll list, count
0, and a computed ETag that is also stored for the session (non-null). -/
theorem get_recent_rolls_empty_session (bst : BroadcasterState)
    (session_id : String) (limit : ℕ) (now : ℚ)
    (h : bst.session_queues session_id = []) :
    (get_recent_rolls bst session_id limit none now).1 =
      .fresh ⟨session_id, [], 0, now⟩ ⟨session_id, [], 0, now⟩ ∧
    ((get_recent_rolls bst session_id limit none now).2).etags session_id =
      some ⟨session_id, [], 0, now⟩ := by
  unfold get_recent_rolls generate_etag check_etag pySliceLast
  simp [h]

/-- Closed instantiation of get_recent_rolls_empty_session on a fresh
broadcaster. -/
theorem get_recent_rolls_empty_session_witness :
    (get_recent_rolls witness_bst "lobby" 10 none 3).1 =
      .fresh ⟨"lobby", [], 0, 3⟩ ⟨"lobby", [], 0, 3⟩ ∧
    ((get_recent_rolls witness_bst "lobby" 10 none 3).2).etags "lobby" =
      some ⟨"lobby", [], 0, 3⟩ :=
  get_recent_rolls_empty_session witness_bst "lobby" 10 3 rfl

/-- C4 at a failing input: two consecutive polls of the same session with
no intervening roll, at server times 0 and then 1. The response body that
generate_etag hashes contains the poll timestamp, so the two polls return
different ETags even though the visible roll content is identical, and
the second poll — presented with the ETag of the first poll as
clientETag — returns a fresh response, not not-modified. -/
theorem etag_includes_poll_timestamp_bug :
    (get_recent_rolls witness_bst "s" 10 none 0).1 =
      .fresh ⟨"s", [], 0, 0⟩ ⟨"s", [], 0, 0⟩ ∧
    (get_recent_rolls ((get_recent_rolls witness_bst "s" 10 none 0).2) "s" 10
      (some ⟨"s", [], 0, 0⟩) 1).1 =
      .fresh ⟨"s", [], 0, 1⟩ ⟨"s", [], 0, 1⟩ ∧
    (⟨"s", [], 0, 1⟩ : RecentRollsPayload) ≠ ⟨"s", [], 0, 0⟩ := by
  exact ⟨rfl, rfl, by decide⟩

lemma list_range_map_sum {M : Type} [AddCommMonoid M] (K : ℕ) (f : ℕ → M) :
    ((List.range K).map f).sum = ∑ i ∈ Finset.range K, f i := by
  induction K with
  | zero => simp
  | succ k ih => simp [List.range_succ, Finset.sum_range_succ, ih]

lemma countP_flatMap {α β : Type} (p : β → Bool) (f : α → List β) :
    ∀ (l : List α), (l.flatMap f).countP p = (l.map (fun a => (f a).countP p)).sum
  | [] => by simp
  | x :: l => by
    simp only [List.flatMap_cons, List.countP_append, List.map_cons, List.sum_cons]
    rw [countP_flatMap p f l]

lemma tupleCount_eq_countP (s : ℕ) :
    ∀ (n : ℕ) (t : ℤ),
      tupleCount s n t =
        (allOutcomes s n).countP (fun l => decide (sumInt l = t))
  | 0, t => by
    rw [tupleCount, allOutcomes]
    by_cases h : t = 0 <;> simp [h, sumInt, List.countP_cons, eq_comm]
  | n + 1, t => by
    rw [tupleCount, allOutcomes, List.flatMap_map, countP_flatMap]
    apply congrArg List.sum
    apply List.map_congr_left
    intro r hr
    rw [List.countP_map, tupleCount_eq_countP s n (t - (r + 1))]
    apply List.countP_congr
    intro l hl
    simp only [Function.comp_apply, decide_eq_true_eq, sumInt, List.sum_cons,
      Int.ofNat_eq_natCast]
    omega

lemma allOutcomes_mem (s : ℕ) :
    ∀ (n : ℕ) (l : List ℕ), l ∈ allOutcomes s n →
      l.length = n ∧ ∀ x ∈ l, 1 ≤ x ∧ x ≤ s
  | 0, l, hl => by
    rw [allOutcomes] at hl
    simp at hl
    subst hl
    simp
  | n + 1, l, hl => by
    rw [allOutcomes] at hl
    simp only [List.mem_flatMap, List.mem_map, List.mem_range] at hl
    obtain ⟨r, ⟨j, hj, hjr⟩, l0, hl0, rfl⟩ := hl
    obtain ⟨hlen, hmem⟩ := allOutcomes_mem s n l0 hl0
    refine ⟨by simp [hlen], ?_⟩
    intro x hx
    rcases List.mem_cons.mp hx with hx | hx
    · subst hx
      omega
    · exact hmem x hx

lemma list_sum_ge_length (l : List ℕ) (h : ∀ x ∈ l, 1 ≤ x) :
    l.length ≤ l.sum := by
  induction l with
  | nil => simp
  | cons a l ih =>
    simp only [List.length_cons, List.sum_cons]
    have ha := h a (List.mem_cons_self a l)
    have := ih (fun x hx => h x (List.mem_cons_of_mem a hx))
    omega

lemma list_sum_le_mul (l : List ℕ) (s : ℕ) (h : ∀ x ∈ l, x ≤ s) :
    l.sum ≤ l.length * s := by
  induction l with
  | nil => simp
  | cons a l ih =>
    simp only [List.length_cons, List.sum_cons]
    have ha := h a (List.mem_cons_self a l)
    have := ih (fun x hx => h x (List.mem_cons_of_mem a hx))
    have hexp : (l.length + 1) * s = l.length * s + s := by ring
    omega

lemma countP_collect (P : ℤ → Prop) [DecidablePred P] (lo : ℤ) (K : ℕ) :
    ∀ (L : List (List ℕ)),
      (∀ l ∈ L, ∃ i, i < K ∧ sumInt l = lo + i) →
      (∑ i ∈ Finset.range K,
        if P (lo + i) then L.countP (fun l => decide (sumInt l = lo + i)) else 0)
        = L.countP (fun l => decide (P (sumInt l)))
  | [], hcov => by simp
  | a :: L, hcov => by
    obtain ⟨i0, hi0K, hi0⟩ := hcov a (List.mem_cons_self a L)
    have hL := fun l hl => hcov l (List.mem_cons_of_mem a hl)
    have key : ∀ i ∈ Finset.range K,
        (if P (lo + i) then
          (a :: L).countP (fun l => decide (sumInt l = lo + i)) else 0)
        = (if P (lo + i) then
            L.countP (fun l => decide (sumInt l = lo + i)) else 0)
          + (if i = i0 then (if P (sumInt a) then 1 else 0) else 0) := by
      intro i hi
      rw [List.countP_cons]
      by_cases hii : i = i0
      · subst hii
        have hsum : (decide (sumInt a = lo + i) = true) := by
          simp [hi0]
        rw [if_pos rfl]
        by_cases hPi : P (lo + i)
        · have hPa : P (sumInt a) := by rw [hi0]; exact hPi
          simp [hPi, hsum, hPa]
        · have hPa : ¬ P (sumInt a) := by rw [hi0]; exact hPi
          simp [hPi, hPa]
      · have hsum : ¬ (sumInt a = lo + i) := by
          rw [hi0]
          intro hcontra
          exact hii (by omega)
        by_cases hPi : P (lo + i) <;> simp [hPi, hsum, hii]
    rw [Finset.sum_congr rfl key, Finset.sum_add_distrib,
      countP_collect P lo K L hL, Finset.sum_ite_eq' (Finset.range K) i0]
    rw [List.countP_cons]
    simp [Finset.mem_range, hi0K]

lemma successCount_eq_exact (n s : ℕ) (m d : ℤ) :
    successCount n s m d = exactSuccessCount n s m d := by
  unfold successCount exactSuccessCount
  rw [list_range_map_sum]
  have hcov : ∀ l ∈ allOutcomes s n,
      ∃ i, i < n * s + 1 - n ∧ sumInt l = (n : ℤ) + i := by
    intro l hl
    obtain ⟨hlen, hbound⟩ := allOutcomes_mem s n l hl
    have h1 : l.length ≤ l.sum := list_sum_ge_length l (fun x hx => (hbound x hx).1)
    have h2 : l.sum ≤ l.length * s := list_sum_le_mul l s (fun x hx => (hbound x hx).2)
    rw [hlen] at h1 h2
    refine ⟨l.sum - n, by omega, ?_⟩
    simp only [sumInt, Int.ofNat_eq_natCast]
    omega
  rw [← countP_collect (fun t => d ≤ t + m) (n : ℤ) (n * s + 1 - n)
    (allOutcomes s n) hcov]
  apply Finset.sum_congr rfl
  intro i hi
  by_cases h : d ≤ (n : ℤ) + i + m
  · rw [if_pos h, if_pos h, tupleCount_eq_countP]
  · rw [if_neg h, if_neg h]

lemma get_success_probability_eq_div (n s : ℕ) (m d : ℤ) :
    get_success_probability n s m d =
      (successCount n s m d : ℚ) / ((s : ℚ) ^ n) := by
  unfold get_success_probability successCount
  rw [list_range_map_sum, list_range_map_sum, Nat.cast_sum, Finset.sum_div]
  apply Finset.sum_congr rfl
  intro i hi
  by_cases h : d ≤ (n : ℤ) + (i : ℤ) + m
  · simp [h]
  · simp [h]

/-- C7 amended: for every dice count — in particular every count greater
than 4 — successProbability is computed by exact enumeration of the
outcome-sum distribution (generate_all_combinations, memoized per
(diceCount, sides) key): it equals the brute-force count of successful
outcomes over sides^diceCount. No normal-distribution approximation branch
exists in the code. -/
theorem success_probability_exact_enumeration (n s : ℕ) (m d : ℤ)
    (_h : 4 < n) :
    get_success_probability n s m d =
      (exactSuccessCount n s m d : ℚ) / ((s : ℚ) ^ n) := by
  rw [get_success_probability_eq_div, successCount_eq_exact]

/-- Closed instantiation of success_probability_exact_enumeration at
5 dice. -/
theorem success_probability_exact_enumeration_witness :
    get_success_probability 5 4 0 14 =
      (exactSuccessCount 5 4 0 14 : ℚ) / (((4 : ℕ) : ℚ) ^ 5) :=
  success_probability_exact_enumeration 5 4 0 14 (by decide)

set_option maxRecDepth 400000 in
/-- C7 counterexample at dice count 5 > 4: the value the code computes for
5d4 against difficulty 14 is exactly the brute-force enumeration result
357/1024, and against difficulty 5 (the minimum possible total) it is
exactly 1 — exact rationals of the enumerated distribution, which refute
the claim that counts above 4 are served by a normal-distribution
approximation rather than by exact enumeration (an erf-based normal CDF
with continuity correction is strictly below 1 everywhere and does not
produce these enumeration rationals). -/
theorem success_probability_no_normal_approximation :
    get_success_probability 5 4 0 14 =
      (exactSuccessCount 5 4 0 14 : ℚ) / (((4 : ℕ) : ℚ) ^ 5) ∧
    get_success_probability 5 4 0 14 = 357 / 1024 ∧
    get_success_probability 5 4 0 5 = 1 := by
  refine ⟨?_, ?_, ?_⟩
  · rw [get_success_probability_eq_div, successCount_eq_exact]
  · rw [get_success_probability_eq_div,
      show successCount 5 4 0 14 = 357 from by decide]
    norm_num
  · rw [get_success_probability_eq_div,
      show successCount 5 4 0 5 = 1024 from by decide]
    norm_num

set_option maxRecDepth 400000 in
/-- C8 at the failing input diceCount 1, sides 6, modifier 0, difficulty 1
(difficulty equals the minimum possible total, so success is certain): the
binary64 sum of the six correctly rounded copies of 1/6 is the largest
double below 1.0 (mantissa 2^53 - 1, printed 0.9999999999999999), not the
1.0 the claim requires, although the exact rational value of the same
enumeration is 1: the code reaches the boundary only up to float
rounding. -/
theorem success_probability_boundary_float_bug :
    get_success_probability_float 1 6 0 1 = ⟨9007199254740991, -53⟩ ∧
    get_success_probability_float 1 6 0 1 ≠ floatOne ∧
    get_success_probability 1 6 0 1 = 1 := by
  refine ⟨by decide, by decide, ?_⟩
  rw [get_success_probability_eq_div,
    show successCount 1 6 0 1 = 6 from by decide]
  norm_num
